import Mathlib

/-!
# TravelPulse itinerary logic: shallow embedding and verification

A shallow embedding of the data-handling core of `src/app.py` (loading and
cleaning of the review/activity tables, deduplication, the left merge on
District, start/end-city reordering via pattern search on Destination,
day-bucketing, and flat-text rendering), together with theorems settling
the specification claims about it.
-/

namespace TravelPulse

/-- Decidable equality for `Except`, needed to `decide` concrete
evaluations of the fallible load and reorder paths. -/
instance {ε α : Type} [DecidableEq ε] [DecidableEq α] :
    DecidableEq (Except ε α) := fun x y =>
  match x, y with
  | .ok a, .ok b =>
    if h : a = b then isTrue (by rw [h])
    else isFalse (fun hc => h (Except.ok.inj hc))
  | .error a, .error b =>
    if h : a = b then isTrue (by rw [h])
    else isFalse (fun hc => h (Except.error.inj hc))
  | .ok _, .error _ => isFalse (fun hc => Except.noConfusion hc)
  | .error _, .ok _ => isFalse (fun hc => Except.noConfusion hc)

/-! ## Python string primitives

Models of the Python/pandas string operations the app uses:
`str.strip()`, `str.title()` and (later) `Series.str.contains`. -/

/-- The whitespace set of Python's `str.strip()`. -/
def isPySpace (c : Char) : Bool :=
  c == ' ' || c == '\t' || c == '\n' || c == '\r' || c == '\x0b' || c == '\x0c'

/-- Model of Python `str.strip()`: remove leading and trailing whitespace. -/
def pyStrip (s : String) : String :=
  ⟨((s.data.dropWhile isPySpace).reverse.dropWhile isPySpace).reverse⟩

/-- One step of Python `str.title()`: a letter is uppercased when the
previous character is not a letter, lowercased otherwise. -/
def pyTitleGo : Bool → List Char → List Char
  | _, [] => []
  | prevAlpha, c :: cs =>
    (if c.isAlpha then (if prevAlpha then c.toLower else c.toUpper) else c)
      :: pyTitleGo c.isAlpha cs

/-- Model of Python `str.title()`. -/
def pyTitle (s : String) : String := ⟨pyTitleGo false s.data⟩

/-! ## Data model

Row types for the two tables, translated from the columns `app.py`
actually touches.  The `Latitude`/`Longitude` columns are only coerced to
numeric in the source (`errors='coerce'`, never raising, never read by the
itinerary logic), so they are not carried in the `Review` record; their
presence is still checked by the load path model. -/

/-- A cleaned review row (columns used by the app). -/
structure Review where
  Destination : String
  District : String
  Sentiment : String
  Cleaned_Review : String
deriving DecidableEq, Repr

/-- An activity row; `activityCategory`/`activity` model the source columns
`Activity Category` and `Activity`. -/
structure Activity where
  District : String
  activityCategory : String
  activity : String
deriving DecidableEq, Repr

/-- The activity part of a merged itinerary row; `none` models the NaN
fields a left merge produces when no activity matches. -/
structure ActInfo where
  activityCategory : String
  activity : String
deriving DecidableEq, Repr

/-- One row of the merged itinerary working set. -/
structure Entry where
  review : Review
  act : Option ActInfo
deriving DecidableEq, Repr

/-! ## Raw tables and the load-and-clean path -/

/-- A raw row, keyed by column name. -/
abbrev Row := List (String × String)

/-- A raw tabular file: header and rows. -/
structure RawTable where
  header : List String
  rows : List Row
deriving DecidableEq, Repr

/-- Cell access `row[col]`; callers check column presence first (a missing
column in pandas raises `KeyError`, modelled by the callers' error path). -/
def getColCell (r : Row) (c : String) : String := ((r.lookup c).getD "")

/-- Model of `df.columns = df.columns.str.strip()`. -/
def stripHeader (t : RawTable) : RawTable :=
  ⟨t.header.map pyStrip, t.rows.map (fun r => r.map (fun p => (pyStrip p.1, p.2)))⟩

/-- Model of `load_excel_data` (lines 27-34): on a missing file the
`FileNotFoundError` handler substitutes an empty frame and flags a
user-visible error message (the Bool). -/
def load_excel_data (src : Option RawTable) : RawTable × Bool :=
  match src with
  | none => (⟨[], []⟩, true)
  | some t => (t, false)

/-- The `Sentiment` enum accepted by the cleaning block (line 61). -/
def allowedSentiments : List String := ["Positive", "Neutral", "Negative"]

/-- Normalization applied to one review row by the cleaning block
(lines 57-60): `Sentiment` title-cased; `District`/`Destination`
title-cased then stripped. -/
def normalizeReviewRow (r : Row) : Review :=
  { Cleaned_Review := getColCell r "Cleaned_Review"
  , Sentiment := pyTitle (getColCell r "Sentiment")
  , District := pyStrip (pyTitle (getColCell r "District"))
  , Destination := pyStrip (pyTitle (getColCell r "Destination")) }

/-- Model of the review cleaning block (lines 55-63): skipped when the
frame is empty; accessing any of the required columns on a frame lacking
it raises `KeyError`, which no handler catches (only `FileNotFoundError`
is handled, inside `load_excel_data`); otherwise rows are normalized and
rows with a sentiment outside the three-value enum are dropped. -/
def cleanReviews (t : RawTable) : Except String (List Review) :=
  if t.rows.isEmpty then .ok []
  else
    if (stripHeader t).header.contains "Cleaned_Review" &&
       (stripHeader t).header.contains "Sentiment" &&
       (stripHeader t).header.contains "District" &&
       (stripHeader t).header.contains "Destination" &&
       (stripHeader t).header.contains "Latitude" &&
       (stripHeader t).header.contains "Longitude" then
      .ok (((stripHeader t).rows.map normalizeReviewRow).filter
            (fun rv => allowedSentiments.contains rv.Sentiment))
    else .error "KeyError"

/-- Normalization of one activity row (lines 44-46). -/
def normalizeActivityRow (r : Row) : Activity :=
  { activityCategory := pyStrip (pyTitle (getColCell r "Activity Category"))
  , activity := pyStrip (getColCell r "Activity")
  , District := pyStrip (pyTitle (getColCell r "District")) }

/-- Model of `load_activities_data` (lines 39-50): a missing file is
caught (`FileNotFoundError` handler: empty frame plus a user-visible
error, the Bool); a missing required column raises `KeyError` inside the
`try`, which the `except FileNotFoundError` clause does not catch, so it
escapes the loader. -/
def load_activities_data (src : Option RawTable) :
    Except String (List Activity × Bool) :=
  match src with
  | none => .ok ([], true)
  | some t0 =>
    let t := stripHeader t0
    if t.header.contains "Activity Category" && t.header.contains "Activity" &&
       t.header.contains "District" then
      .ok (t.rows.map normalizeActivityRow, false)
    else .error "KeyError"

/-! ## Deduplication by Destination

Model of `reviews_df.drop_duplicates(subset=['Destination'])` (line 275):
pandas `keep='first'` semantics, i.e. the first row of each Destination in
input order survives. -/

/-- Worker for `dropDupsByDest`; `seen` holds the Destinations already kept. -/
def dropDupsGo (seen : List String) : List Review → List Review
  | [] => []
  | r :: rs =>
    if r.Destination ∈ seen then dropDupsGo seen rs
    else r :: dropDupsGo (r.Destination :: seen) rs

/-- Model of `drop_duplicates(subset=['Destination'])` with the default
`keep='first'`. -/
def dropDupsByDest (rows : List Review) : List Review := dropDupsGo [] rows

/-! ## Pattern matching: `Series.str.contains`

`app.py` calls `itinerary_df['Destination'].str.contains(city, case=False)`
(lines 288 and 292).  With pandas defaults this interprets the user string
as a regular-expression pattern (`regex=True`), compiled case-insensitively
and searched anywhere in each Destination; an invalid pattern raises
`re.error` out of the call.  We embed the engine for the pattern fragment
the app's inputs exercise: literal characters, `.`, grouping parentheses,
alternation `|`, the postfix repetitions `*` `+` `?`, and backslash-escaped
punctuation.  Character classes, anchors and letter/digit escapes are
outside the modelled fragment (the parser reports them as errors); `{` and
`}` are treated as literals (as Python does whenever they do not form a
valid quantifier).  Compile errors (e.g. an unbalanced `(`) are modelled
faithfully as `.error`. -/

/-- Regular expressions (Brzozowski-derivative style). `pred` is a
character test (literal characters are embedded as equality tests on the
lowercased character). -/
inductive RE where
  | empt : RE
  | eps : RE
  | pred : (Char → Bool) → RE
  | any : RE
  | cat : RE → RE → RE
  | alt : RE → RE → RE
  | star : RE → RE

/-- Does the expression accept the empty string? -/
def RE.nullable : RE → Bool
  | .empt => false
  | .eps => true
  | .pred _ => false
  | .any => false
  | .cat a b => a.nullable && b.nullable
  | .alt a b => a.nullable || b.nullable
  | .star _ => true

/-- Brzozowski derivative with respect to one character.  `.any` models
`.`, which in Python matches every character except a newline. -/
def RE.deriv : RE → Char → RE
  | .empt, _ => .empt
  | .eps, _ => .empt
  | .pred p, c => if p c then .eps else .empt
  | .any, c => if c == '\n' then .empt else .eps
  | .cat a b, c =>
    if a.nullable then .alt (.cat (a.deriv c) b) (b.deriv c)
    else .cat (a.deriv c) b
  | .alt a b, c => .alt (a.deriv c) (b.deriv c)
  | .star a, c => .cat (a.deriv c) (.star a)

/-- Whole-string match. -/
def RE.rmatch : RE → List Char → Bool
  | r, [] => r.nullable
  | r, c :: s => (r.deriv c).rmatch s

/-- Does `r` match some leading segment of `s`? -/
def RE.matchesHead : RE → List Char → Bool
  | r, [] => r.nullable
  | r, c :: s => r.nullable || (r.deriv c).matchesHead s

/-- Does `r` match some segment of `s` (the semantics of `re.search`)? -/
def RE.search : RE → List Char → Bool
  | r, [] => r.nullable
  | r, c :: s => r.matchesHead (c :: s) || r.search s

/-- Literal-character atom: case-insensitive comparison (`re.IGNORECASE`,
from `case=False`) against the pattern character. -/
def RE.lit (c : Char) : RE := .pred (fun d => d.toLower == c.toLower)

mutual

/-- Parse an alternation (`|`-separated concatenations). -/
def pAltF : Nat → List Char → Except String (RE × List Char)
  | 0, _ => .error "pattern too deep for model"
  | f + 1, cs => do
    let (r, rest) ← pCatF f cs
    match rest with
    | '|' :: rest2 => do
      let (r2, rest3) ← pAltF f rest2
      .ok (RE.alt r r2, rest3)
    | _ => .ok (r, rest)

/-- Parse a concatenation of repeated atoms. -/
def pCatF : Nat → List Char → Except String (RE × List Char)
  | 0, _ => .error "pattern too deep for model"
  | f + 1, cs =>
    match cs with
    | [] => .ok (RE.eps, [])
    | c :: rest =>
      if c == ')' || c == '|' then .ok (RE.eps, c :: rest)
      else do
        let (a, rest1) ← pAtomF f (c :: rest)
        let (a2, rest2) :=
          match rest1 with
          | [] => (a, rest1)
          | d :: rest3 =>
            if d == '*' then (RE.star a, rest3)
            else if d == '+' then (RE.cat a (RE.star a), rest3)
            else if d == '?' then (RE.alt a RE.eps, rest3)
            else (a, rest1)
        let (b, rest4) ← pCatF f rest2
        .ok (RE.cat a2 b, rest4)

/-- Parse one atom. -/
def pAtomF : Nat → List Char → Except String (RE × List Char)
  | 0, _ => .error "pattern too deep for model"
  | f + 1, cs =>
    match cs with
    | [] => .error "missing atom"
    | c :: rest =>
      if c == '(' then do
        let (r, rest2) ← pAltF f rest
        match rest2 with
        | ')' :: rest3 => .ok (r, rest3)
        | _ => .error "missing ), unterminated subpattern"
      else if c == '.' then .ok (RE.any, rest)
      else if c == '*' || c == '+' || c == '?' then .error "nothing to repeat"
      else if c == '\\' then
        match rest with
        | [] => .error "bad escape (end of pattern)"
        | d :: rest2 =>
          if d.isAlphanum then .error "escape class outside modelled fragment"
          else .ok (RE.lit d, rest2)
      else if c == '[' then .error "character class outside modelled fragment"
      else if c == '^' || c == '$' then .error "anchor outside modelled fragment"
      else .ok (RE.lit c, rest)

end

/-- Compile a pattern (with the flags the app passes: `case=False`, i.e.
`re.IGNORECASE`, folded into `RE.lit`).  Leftover input after a parse can
only start with a stray `)`. -/
def reCompile (pat : String) : Except String RE :=
  match pAltF (4 * pat.length + 4) pat.data with
  | .ok (r, []) => .ok r
  | .ok (_, _ :: _) => .error "unbalanced parenthesis"
  | .error e => .error e

/-- Search of a compiled pattern anywhere in a string. -/
def rsearchS (r : RE) (s : String) : Bool := r.search s.data

/-- Model of `Series.str.contains(pat, case=False)` applied to one cell:
compile the pattern (possibly failing, as `re.error` does) and search. -/
def pdStrContains (pat s : String) : Except String Bool :=
  (reCompile pat).map (fun r => rsearchS r s)

/-! ## Specification-side matching

The spec describes the matching step as "Destination case-insensitively
contains the start-city substring".  These definitions follow the spec's
words, for comparison with the engine above. -/

/-- Is `n` a contiguous segment of `h`? -/
def containsSeq (n : List Char) : List Char → Bool
  | [] => n.isPrefixOf []
  | c :: t => n.isPrefixOf (c :: t) || containsSeq n t

/-- The spec's matching predicate: case-insensitive substring containment. -/
def ciSubstrContains (needle hay : String) : Bool :=
  containsSeq (needle.data.map Char.toLower) (hay.data.map Char.toLower)

/-- Characters that are special in Python pattern syntax.  (`\x7b`/`\x7d`
are the curly braces.) -/
def reMetachars : List Char :=
  ['.', '^', '$', '*', '+', '?', Char.ofNat 123, Char.ofNat 125,
   '[', ']', '\\', '|', '(', ')']

/-- A pattern string free of metacharacters (for which `re` search is
plain substring search). -/
def literalPattern (pat : String) : Bool :=
  pat.data.all (fun c => !reMetachars.contains c)

/-! ## The itinerary builder (lines 274-302) -/

/-- Model of the District filter (lines 276-277). -/
def filterByDistrict (preferred_district : String) (rows : List Review) :
    List Review :=
  if preferred_district != "Any" then
    rows.filter (fun r => r.District == preferred_district)
  else rows

/-- Model of the Activity-Category filter (lines 278-281):
`if preferred_activity and "Any" not in preferred_activity`. -/
def filterActivities (preferred_activity : List String)
    (acts : List Activity) : List Activity :=
  if !preferred_activity.isEmpty && !preferred_activity.contains "Any" then
    acts.filter (fun a => preferred_activity.contains a.activityCategory)
  else acts

/-- The entries a single review contributes to the left merge: one per
matching activity, or a single activity-less entry when none matches. -/
def mergeRow (acts : List Activity) (r : Review) : List Entry :=
  if (acts.filter (fun a => a.District == r.District)).isEmpty then
    [⟨r, none⟩]
  else
    (acts.filter (fun a => a.District == r.District)).map
      (fun a => ⟨r, some ⟨a.activityCategory, a.activity⟩⟩)

/-- Model of `itinerary_df.merge(activity_filtered[...], on='District',
how='left')` (lines 283-285): left rows in order, each fanned out over its
matching right rows in order. -/
def leftMerge (reviews : List Review) (acts : List Activity) : List Entry :=
  reviews.flatMap (mergeRow acts)

/-- Model of the start-city step (lines 287-290): skipped when the input
string is empty (Python truthiness of `start_city`); otherwise the pattern
is compiled (possibly raising) and matching rows move to the front,
by `pd.concat([start_row, itinerary_df.drop(start_row.index)])`. -/
def reorderStart (start_city : String) (entries : List Entry) :
    Except String (List Entry) :=
  if start_city == "" then .ok entries
  else
    match reCompile start_city with
    | .error e => .error e
    | .ok r =>
      let start_row := entries.filter (fun e => rsearchS r e.review.Destination)
      if start_row.isEmpty then .ok entries
      else .ok (start_row ++
                entries.filter (fun e => !rsearchS r e.review.Destination))

/-- Model of the end-city step (lines 291-294): matching rows move to the
back, by `pd.concat([itinerary_df.drop(end_row.index), end_row])`. -/
def reorderEnd (end_city : String) (entries : List Entry) :
    Except String (List Entry) :=
  if end_city == "" then .ok entries
  else
    match reCompile end_city with
    | .error e => .error e
    | .ok r =>
      let end_row := entries.filter (fun e => rsearchS r e.review.Destination)
      if end_row.isEmpty then .ok entries
      else .ok (entries.filter (fun e => !rsearchS r e.review.Destination) ++
                end_row)

/-- Model of `destinations_per_day = max(1, len(itinerary_df) // num_days)`
(line 297). -/
def destinationsPerDay (total num_days : Nat) : Nat := max 1 (total / num_days)

/-- Model of the day-bucketing loop (lines 301-302): day `i` receives
`itinerary_df.iloc[i*s : (i+1)*s]` where `s = destinations_per_day`. -/
def dayBuckets (entries : List Entry) (num_days : Nat) : List (List Entry) :=
  (List.range num_days).map
    (fun day =>
      (entries.drop (day * destinationsPerDay entries.length num_days)).take
        (destinationsPerDay entries.length num_days))

/-- The form inputs of the itinerary page (lines 263-271). -/
structure ItineraryParams where
  num_days : Nat
  preferred_district : String
  preferred_activity : List String
  start_city : String
  end_city : String
deriving DecidableEq, Repr

/-- Model of the itinerary computation on submit (lines 274-302):
deduplicate, filter, left-merge, reorder by start and end city (either of
which can raise a pattern error), then bucket by day. -/
def buildItinerary (reviews : List Review) (acts : List Activity)
    (p : ItineraryParams) : Except String (List (List Entry)) := do
  let it0 := dropDupsByDest reviews
  let it1 := filterByDistrict p.preferred_district it0
  let af := filterActivities p.preferred_activity acts
  let it2 := leftMerge it1 af
  let it3 ← reorderStart p.start_city it2
  let it4 ← reorderEnd p.end_city it3
  .ok (dayBuckets it4 p.num_days)

/-- Model of the page guard (line 261): the form, and hence the builder,
is reachable only when both tables are non-empty. -/
def itineraryPage (reviews : List Review) (acts : List Activity)
    (p : ItineraryParams) : Option (Except String (List (List Entry))) :=
  if !reviews.isEmpty && !acts.isEmpty then some (buildItinerary reviews acts p)
  else none

/-! ## The flat-text renderer (lines 299-313)

Per non-empty day, the loop appends each entry's block followed by a
newline, then one extra newline after the day.  The `Day {n}` header is
written only to the interactive display (`st.markdown`, line 304), never
to `itinerary_text`. -/

/-- Model of `activity_info` (line 306). -/
def activityInfo (e : Entry) : String :=
  match e.act with
  | some a => a.activityCategory ++ " - " ++ a.activity
  | none => "N/A"

/-- Model of `line` (lines 307-309). -/
def entryLine (e : Entry) : String :=
  "- **Destination:** " ++ e.review.Destination ++ " (" ++
    e.review.District ++ ")  \n" ++
  "  **Sentiment:** " ++ e.review.Sentiment ++ "  \n" ++
  "  **Activity:** " ++ activityInfo e

/-- The text one day's inner loop appends (line 311): each entry's block
followed by a newline, in order. -/
def dayText : List Entry → String
  | [] => ""
  | e :: es => entryLine e ++ "\n" ++ dayText es

/-- Model of the `itinerary_text` accumulation (lines 299-313). -/
def itineraryText (buckets : List (List Entry)) : String :=
  buckets.foldl
    (fun acc day => if day.isEmpty then acc else acc ++ dayText day ++ "\n") ""

/-! ## Sample data for witnesses and counterexamples -/

/-- Sample review rows. -/
def rvS1 : Review := ⟨"Anuradhapura", "Anuradhapura", "Positive", "calm"⟩

/-- A second sample review, in the Galle district. -/
def rvS2 : Review := ⟨"Bentota", "Galle", "Neutral", "ok"⟩

/-- A review sharing `rvS1`'s Destination but nothing else. -/
def rvS1dup : Review := ⟨"Anuradhapura", "Polonnaruwa", "Negative", "crowded"⟩

/-- A sample activity row matching the Galle district. -/
def actS1 : Activity := ⟨"Galle", "Beach", "Surfing"⟩

/-- Minimal merged entries with one-letter Destinations. -/
def entA : Entry := ⟨⟨"A", "D1", "Positive", "r"⟩, none⟩

/-- Second minimal entry. -/
def entB : Entry := ⟨⟨"B", "D2", "Neutral", "r"⟩, none⟩

/-- Third minimal entry. -/
def entC : Entry := ⟨⟨"C", "D3", "Negative", "r"⟩, none⟩

/-- Entry whose Destination is the two-character string `Ba`. -/
def entBa : Entry := ⟨⟨"Ba", "D4", "Positive", "r"⟩, none⟩

/-- Entry whose Destination is the two-character string `Ab`. -/
def entAb : Entry := ⟨⟨"Ab", "D5", "Positive", "r"⟩, none⟩

/-- Default form parameters used by sample invocations. -/
def pS1 : ItineraryParams := ⟨3, "Any", [], "Colombo", "Kandy"⟩

/-! ## Helper lemmas: day-bucketing -/

/-- Concatenating the `N` successive slices of width `s` recovers the
first `N * s` elements. -/
theorem slices_flatten {α : Type} (l : List α) (s : Nat) :
    ∀ N : Nat,
      ((List.range N).map (fun i => (l.drop (i * s)).take s)).flatten =
        l.take (N * s)
  | 0 => by simp
  | N + 1 => by
    rw [List.range_succ, List.map_append, List.flatten_append,
      slices_flatten l s N]
    simp [Nat.succ_mul, List.take_add]

/-! ## C1: day-bucketing -/

/-- C1: for any entry sequence and trip length `N ∈ 1..10`, day `i`
(`0 ≤ i < N`) receives exactly the contiguous slice from `i*s` to
`(i+1)*s` with `s = max 1 (total / N)`, entries from index `N*s` on land
in no bucket; for 9 entries, `N = 3` gives three days of three entries
covering everything, and `N = 4` gives four days of two entries with the
ninth entry omitted. -/
theorem dayBuckets_contiguous_slices (entries : List Entry) (N : Nat)
    (h1 : 1 ≤ N) (h2 : N ≤ 10) :
    ((dayBuckets entries N).length = N ∧
     (∀ i, i < N →
        (dayBuckets entries N)[i]? =
          some ((entries.drop (i * destinationsPerDay entries.length N)).take
                  (destinationsPerDay entries.length N))) ∧
     (dayBuckets entries N).flatten =
        entries.take (N * destinationsPerDay entries.length N)) ∧
    (entries.length = 9 →
      (dayBuckets entries 3).map List.length = [3, 3, 3] ∧
      (dayBuckets entries 3).flatten = entries ∧
      (dayBuckets entries 4).map List.length = [2, 2, 2, 2] ∧
      (dayBuckets entries 4).flatten = entries.take 8) := by
  constructor
  · refine ⟨by simp [dayBuckets], ?_, ?_⟩
    · intro i hi
      simp [dayBuckets, List.getElem?_map, List.getElem?_range hi]
    · exact slices_flatten entries (destinationsPerDay entries.length N) N
  · intro h9
    have hs3 : destinationsPerDay entries.length 3 = 3 := by
      rw [h9]; decide
    have hs4 : destinationsPerDay entries.length 4 = 2 := by
      rw [h9]; decide
    have hr3 : List.range 3 = [0, 1, 2] := rfl
    have hr4 : List.range 4 = [0, 1, 2, 3] := rfl
    refine ⟨?_, ?_, ?_, ?_⟩
    · simp only [dayBuckets, hs3, hr3, List.map_cons, List.map_nil,
        List.length_take, List.length_drop, h9]
      decide
    · have := slices_flatten entries (destinationsPerDay entries.length 3) 3
      rw [dayBuckets, this, hs3, show (3 * 3 : Nat) = 9 from rfl, ← h9,
        List.take_length]
    · simp only [dayBuckets, hs4, hr4, List.map_cons, List.map_nil,
        List.length_take, List.length_drop, h9]
      decide
    · have := slices_flatten entries (destinationsPerDay entries.length 4) 4
      rw [dayBuckets, this, hs4]

/-- Witness for C1 at a concrete nine-entry sequence and `N = 3`. -/
theorem dayBuckets_contiguous_slices_witness :
    (dayBuckets (List.replicate 9 entA) 3).flatten = List.replicate 9 entA :=
  ((dayBuckets_contiguous_slices (List.replicate 9 entA) 3
      (by decide) (by decide)).2 (by simp)).2.1

/-! ## C8: emptiness guard -/

/-- C8: the itinerary builder is invoked exactly when both loaded tables
are non-empty; emptiness of either is the only condition making itinerary
generation unavailable. -/
theorem itineraryPage_empty_guard (reviews : List Review)
    (acts : List Activity) (p : ItineraryParams) :
    (itineraryPage reviews acts p = none ↔ reviews = [] ∨ acts = []) ∧
    (reviews ≠ [] → acts ≠ [] →
      itineraryPage reviews acts p = some (buildItinerary reviews acts p)) := by
  constructor
  · unfold itineraryPage
    split
    · next h =>
      simp only [Bool.and_eq_true, Bool.not_eq_true', List.isEmpty_eq_false]
        at h
      simp [h.1, h.2]
    · next h =>
      simp only [Bool.and_eq_true, Bool.not_eq_true', List.isEmpty_eq_false,
        not_and_or, not_not] at h
      simp [h]
  · intro h1 h2
    unfold itineraryPage
    rw [if_pos]
    simp [List.isEmpty_eq_false.mpr h1, List.isEmpty_eq_false.mpr h2]

/-- Witness for C8 with one review and one activity. -/
theorem itineraryPage_empty_guard_witness :
    itineraryPage [rvS1] [actS1] pS1 =
      some (buildItinerary [rvS1] [actS1] pS1) :=
  (itineraryPage_empty_guard [rvS1] [actS1] pS1).2
    (by simp [rvS1]) (by simp [actS1])

/-! ## C10: empty city strings skip the reorder -/

/-- C10: an empty start-city (resp. end-city) string makes the code skip
the corresponding reorder step entirely (`if start_city:` is false), so
the entry order is unchanged. -/
theorem reorder_skips_empty_city (entries : List Entry) :
    reorderStart "" entries = .ok entries ∧
    reorderEnd "" entries = .ok entries := by
  constructor <;> simp [reorderStart, reorderEnd]

/-! ## C5: sentiment enum invariant -/

/-- A raw review row with a valid sentiment. -/
def rowGoodS : Row :=
  [("Cleaned_Review", "nice"), ("Sentiment", "positive"), ("District", "Galle"),
   ("Destination", "Bentota"), ("Latitude", "6.4"), ("Longitude", "80.0")]

/-- A raw review row whose sentiment title-cases to `Mixed`, outside the
three-value enum. -/
def rowBadS : Row :=
  [("Cleaned_Review", "meh"), ("Sentiment", "mixed"), ("District", "Galle"),
   ("Destination", "Hikkaduwa"), ("Latitude", "6.1"), ("Longitude", "80.1")]

/-- A sample review table containing one valid-sentiment row and one
invalid-sentiment row. -/
def tReviewsS : RawTable :=
  ⟨["Cleaned_Review", "Sentiment", "District", "Destination", "Latitude",
    "Longitude"], [rowGoodS, rowBadS]⟩

/-- C5: every row surviving the load-and-clean step has a Sentiment in
the three-value enum, and any input row whose title-cased sentiment falls
outside the enum is absent from the result. -/
theorem cleanReviews_sentiment_invariant (t : RawTable) (out : List Review)
    (h : cleanReviews t = .ok out) :
    (∀ rv ∈ out, rv.Sentiment ∈ allowedSentiments) ∧
    (∀ r ∈ (stripHeader t).rows,
      (normalizeReviewRow r).Sentiment ∉ allowedSentiments →
      normalizeReviewRow r ∉ out) := by
  unfold cleanReviews at h
  split at h
  · injection h with h
    subst h
    exact ⟨by simp, by simp⟩
  · split at h
    · injection h with h
      subst h
      constructor
      · intro rv hrv
        rw [List.mem_filter] at hrv
        exact List.elem_iff.mp hrv.2
      · intro r _ hbad hmem
        rw [List.mem_filter] at hmem
        exact hbad (List.elem_iff.mp hmem.2)
    · cases h

/-- Witness for C5: the `mixed`-sentiment sample row is dropped. -/
theorem cleanReviews_sentiment_invariant_witness :
    (normalizeReviewRow rowBadS).Sentiment ∉ allowedSentiments ∧
    normalizeReviewRow rowBadS ∉ [Review.mk "Bentota" "Galle" "Positive" "nice"] :=
  ⟨by decide,
   (cleanReviews_sentiment_invariant tReviewsS
      [Review.mk "Bentota" "Galle" "Positive" "nice"] (by decide)).2
     rowBadS (by decide) (by decide)⟩

/-! ## C6: missing file vs missing column -/

/-- An activity table lacking the required `Activity Category` column. -/
def actsMissingCol : RawTable :=
  ⟨["District", "Activity"], [[("District", "Galle"), ("Activity", "Surfing")]]⟩

/-- A review table lacking the required `Sentiment` column. -/
def reviewsMissingCol : RawTable :=
  ⟨["Cleaned_Review", "District"], [[("Cleaned_Review", "x"), ("District", "Galle")]]⟩

/-- Counterexample to C6: on a table that exists but lacks a required
column, the activities loader does not return an empty table with a
warning; the `KeyError` escapes (only `FileNotFoundError` is handled). -/
theorem load_activities_missing_column_raises :
    load_activities_data (some actsMissingCol) = .error "KeyError" := by
  decide

/-- C6 as amended: a missing file degrades to an empty table plus a
user-visible warning on both load paths with no exception, but a missing
required column makes the load path raise `KeyError` (uncaught, since the
handlers only catch `FileNotFoundError`). -/
theorem loaders_missing_file_vs_missing_column :
    (load_excel_data none = (⟨[], []⟩, true) ∧
     cleanReviews (load_excel_data none).1 = .ok [] ∧
     load_activities_data none = .ok ([], true)) ∧
    (∀ t : RawTable,
      (stripHeader t).header.contains "Activity Category" = false →
      load_activities_data (some t) = .error "KeyError") ∧
    (∀ t : RawTable, t.rows ≠ [] →
      (stripHeader t).header.contains "Sentiment" = false →
      cleanReviews t = .error "KeyError") := by
  refine ⟨⟨rfl, rfl, rfl⟩, ?_, ?_⟩
  · intro t h
    have hcond : ((stripHeader t).header.contains "Activity Category" &&
        (stripHeader t).header.contains "Activity" &&
        (stripHeader t).header.contains "District") = false := by
      simp only [h, Bool.false_and]
    simp only [load_activities_data, hcond, Bool.false_eq_true,
      if_false]
  · intro t h1 h2
    have he : t.rows.isEmpty = false := by
      simpa [List.isEmpty_eq_false] using h1
    have hcond : ((stripHeader t).header.contains "Cleaned_Review" &&
        (stripHeader t).header.contains "Sentiment" &&
        (stripHeader t).header.contains "District" &&
        (stripHeader t).header.contains "Destination" &&
        (stripHeader t).header.contains "Latitude" &&
        (stripHeader t).header.contains "Longitude") = false := by
      simp only [h2, Bool.and_false, Bool.false_and]
    simp only [cleanReviews, he, hcond, Bool.false_eq_true, if_false]

/-- Witness for the amended C6 on the column-less review table. -/
theorem loaders_missing_file_vs_missing_column_witness :
    cleanReviews reviewsMissingCol = .error "KeyError" :=
  loaders_missing_file_vs_missing_column.2.2 reviewsMissingCol
    (by decide) (by decide)

/-! ## C9: pattern-special characters in the city fields -/

/-- C9 (code bug): with a start-city string `(` — unbalanced pattern
syntax — the builder raises a pattern-compile error out of
`str.contains`, and the page surfaces that failure instead of a plan; no
handler exists on this path, contradicting the no-exception contract. -/
theorem buildItinerary_invalid_pattern_raises :
    buildItinerary [rvS1, rvS2] [actS1]
        ⟨3, "Any", [], "(", "Kandy"⟩ =
      .error "missing ), unterminated subpattern" ∧
    itineraryPage [rvS1, rvS2] [actS1]
        ⟨3, "Any", [], "(", "Kandy"⟩ =
      some (.error "missing ), unterminated subpattern") := by
  constructor <;> rfl

/-! ## Helper lemmas: deduplication -/

/-- The deduplicated list is a sublist of the input (order preserved). -/
theorem dropDupsGo_sublist :
    ∀ (seen : List String) (l : List Review), (dropDupsGo seen l).Sublist l
  | _, [] => List.Sublist.refl []
  | seen, x :: rs => by
    unfold dropDupsGo
    split
    · exact (dropDupsGo_sublist seen rs).cons x
    · exact (dropDupsGo_sublist _ rs).cons₂ x

/-- No kept row has a Destination in the `seen` accumulator. -/
theorem dropDupsGo_not_seen :
    ∀ (seen : List String) (l : List Review) (r : Review),
      r ∈ dropDupsGo seen l → r.Destination ∉ seen
  | seen, [], r => by simp [dropDupsGo]
  | seen, x :: rs, r => by
    unfold dropDupsGo
    split
    · exact dropDupsGo_not_seen seen rs r
    · next hnin =>
      intro hmem
      rcases List.mem_cons.mp hmem with h | h
      · subst h; exact hnin
      · have := dropDupsGo_not_seen (x.Destination :: seen) rs r h
        exact fun hc => this (List.mem_cons_of_mem _ hc)

/-- Kept rows have pairwise distinct Destinations. -/
theorem dropDupsGo_pairwise :
    ∀ (seen : List String) (l : List Review),
      (dropDupsGo seen l).Pairwise
        (fun a b => a.Destination ≠ b.Destination)
  | _, [] => List.Pairwise.nil
  | seen, x :: rs => by
    unfold dropDupsGo
    split
    · exact dropDupsGo_pairwise seen rs
    · refine List.Pairwise.cons ?_ (dropDupsGo_pairwise _ rs)
      intro b hb hc
      exact dropDupsGo_not_seen (x.Destination :: seen) rs b hb
        (by rw [← hc]; exact List.mem_cons_self _ _)

/-- On a list whose Destinations avoid `seen` and are pairwise distinct,
the deduplication pass keeps everything. -/
theorem dropDupsGo_id :
    ∀ (seen : List String) (l : List Review),
      (∀ r ∈ l, r.Destination ∉ seen) →
      l.Pairwise (fun a b => a.Destination ≠ b.Destination) →
      dropDupsGo seen l = l
  | _, [], _, _ => rfl
  | seen, x :: rs, hns, hpw => by
    unfold dropDupsGo
    rw [if_neg (hns x (List.mem_cons_self x rs))]
    congr 1
    apply dropDupsGo_id
    · intro r hr hc
      rcases List.mem_cons.mp hc with h | h
      · exact (List.pairwise_cons.mp hpw).1 r hr h.symm
      · exact hns r (List.mem_cons_of_mem _ hr) h
    · exact (List.pairwise_cons.mp hpw).2

/-- Every kept row is the first row of its Destination in the input. -/
theorem dropDupsGo_first :
    ∀ (seen : List String) (l : List Review) (r : Review),
      r ∈ dropDupsGo seen l →
      l.find? (fun x => x.Destination == r.Destination) = some r
  | seen, [], r => by simp [dropDupsGo]
  | seen, x :: rs, r => by
    unfold dropDupsGo
    split
    · next hin =>
      intro hmem
      have hne : x.Destination ≠ r.Destination := fun hc =>
        dropDupsGo_not_seen seen rs r hmem (hc ▸ hin)
      rw [List.find?_cons_of_neg _ (by simp [hne])]
      exact dropDupsGo_first seen rs r hmem
    · next hnin =>
      intro hmem
      rcases List.mem_cons.mp hmem with h | h
      · subst h
        exact List.find?_cons_of_pos _ (by simp)
      · have hne : x.Destination ≠ r.Destination := fun hc =>
          dropDupsGo_not_seen (x.Destination :: seen) rs r h
            (by rw [← hc]; exact List.mem_cons_self _ _)
        rw [List.find?_cons_of_neg _ (by simp [hne])]
        exact dropDupsGo_first _ rs r h

/-- Every input Destination outside `seen` still has a representative. -/
theorem dropDupsGo_covers :
    ∀ (seen : List String) (l : List Review) (r : Review),
      r ∈ l → r.Destination ∉ seen →
      ∃ q ∈ dropDupsGo seen l, q.Destination = r.Destination
  | _, [], r => by simp
  | seen, x :: rs, r => by
    intro hmem hns
    unfold dropDupsGo
    split
    · next hin =>
      rcases List.mem_cons.mp hmem with h | h
      · exact absurd (h ▸ hin) hns
      · exact dropDupsGo_covers seen rs r h hns
    · next hnin =>
      rcases List.mem_cons.mp hmem with h | h
      · subst h
        exact ⟨r, List.mem_cons_self _ _, rfl⟩
      · by_cases hd : r.Destination = x.Destination
        · exact ⟨x, List.mem_cons_self _ _, hd.symm⟩
        · obtain ⟨q, hq, hqd⟩ :=
            dropDupsGo_covers (x.Destination :: seen) rs r h
              (fun hc => by
                rcases List.mem_cons.mp hc with h2 | h2
                · exact hd h2
                · exact hns h2)
          exact ⟨q, List.mem_cons_of_mem _ hq, hqd⟩

/-! ## C4: deduplication semantics -/

/-- C4: deduplication by Destination keeps a sublist of the input whose
members are each the first input row of their Destination (so order comes
from input order, not sentiment), drops no Destination, and is
idempotent. -/
theorem dropDupsByDest_first_wins_idempotent (l : List Review) :
    (dropDupsByDest l).Sublist l ∧
    (∀ r ∈ dropDupsByDest l,
      l.find? (fun x => x.Destination == r.Destination) = some r) ∧
    (∀ r ∈ l, ∃ q ∈ dropDupsByDest l, q.Destination = r.Destination) ∧
    dropDupsByDest (dropDupsByDest l) = dropDupsByDest l := by
  refine ⟨dropDupsGo_sublist [] l,
    fun r hr => dropDupsGo_first [] l r hr,
    fun r hr => dropDupsGo_covers [] l r hr (by simp), ?_⟩
  exact dropDupsGo_id [] _ (fun r _ => by simp) (dropDupsGo_pairwise [] l)

/-- Witness for C4: with two rows sharing a Destination, the kept
representative is the first one in input order. -/
theorem dropDupsByDest_first_wins_idempotent_witness :
    [rvS1, rvS1dup, rvS2].find?
      (fun x => x.Destination == rvS1.Destination) = some rvS1 :=
  (dropDupsByDest_first_wins_idempotent [rvS1, rvS1dup, rvS2]).2.1 rvS1
    (by decide)

/-! ## Helper lemmas: the left merge -/

/-- Every entry a review contributes carries that review. -/
theorem mergeRow_review (acts : List Activity) (r : Review) :
    ∀ e ∈ mergeRow acts r, e.review = r := by
  intro e he
  unfold mergeRow at he
  split at he
  · rw [List.mem_singleton.mp he]
  · rcases List.mem_map.mp he with ⟨a, _, rfl⟩
    rfl

/-- A review contributes `max 1 k` entries, `k` its match count. -/
theorem mergeRow_length (acts : List Activity) (r : Review) :
    (mergeRow acts r).length =
      max 1 (acts.filter (fun a => a.District == r.District)).length := by
  unfold mergeRow
  split
  · next h => simp [List.isEmpty_iff.mp h]
  · next h =>
    rw [List.length_map]
    have hpos : 0 < (acts.filter (fun a => a.District == r.District)).length :=
      List.length_pos.mpr (by
        intro hc
        exact h (by rw [hc]; rfl))
    omega

/-- With no matching activity, the contributed entry has absent activity
fields. -/
theorem mergeRow_no_match (acts : List Activity) (r : Review)
    (h : acts.filter (fun a => a.District == r.District) = []) :
    mergeRow acts r = [⟨r, none⟩] := by
  unfold mergeRow
  rw [if_pos (by rw [h]; rfl)]

/-- Any populated activity field comes from a matching activity row. -/
theorem mergeRow_some (acts : List Activity) (r : Review) :
    ∀ e ∈ mergeRow acts r, ∀ ai, e.act = some ai →
      ∃ a ∈ acts, a.District = e.review.District ∧
        ai = ⟨a.activityCategory, a.activity⟩ := by
  intro e he ai hai
  unfold mergeRow at he
  split at he
  · rw [List.mem_singleton.mp he] at hai
    cases hai
  · rcases List.mem_map.mp he with ⟨a, ha, rfl⟩
    rcases List.mem_filter.mp ha with ⟨hmem, hdist⟩
    cases hai
    exact ⟨a, hmem, beq_iff_eq.mp hdist, rfl⟩

/-- A review always contributes at least one entry. -/
theorem mergeRow_ne_nil (acts : List Activity) (r : Review) :
    mergeRow acts r ≠ [] := by
  intro hc
  have := mergeRow_length acts r
  rw [hc] at this
  simp at this
  omega

/-- Counting entries of one review in the merge result. -/
theorem leftMerge_count (reviews : List Review) (acts : List Activity)
    (r : Review) :
    ((leftMerge reviews acts).filter (fun e => e.review == r)).length =
      (reviews.filter (fun x => x == r)).length *
        max 1 (acts.filter (fun a => a.District == r.District)).length := by
  induction reviews with
  | nil => simp [leftMerge]
  | cons x xs ih =>
    rw [leftMerge, List.flatMap_cons, List.filter_append, List.length_append]
    rw [leftMerge] at ih
    by_cases hxr : x = r
    · subst hxr
      have hall : (mergeRow acts x).filter (fun e => e.review == x) =
          mergeRow acts x :=
        List.filter_eq_self.mpr
          (fun e he => beq_iff_eq.mpr (mergeRow_review acts x e he))
      have hfc : List.filter (fun y => y == x) (x :: xs) =
          x :: List.filter (fun y => y == x) xs :=
        List.filter_cons_of_pos (by simp)
      rw [hall, mergeRow_length, ih, hfc, List.length_cons]
      ring
    · have hnone : (mergeRow acts x).filter (fun e => e.review == r) = [] :=
        List.filter_eq_nil_iff.mpr
          (fun e he => by simp [mergeRow_review acts x e he, hxr])
      have hfc : List.filter (fun y => y == r) (x :: xs) =
          List.filter (fun y => y == r) xs :=
        List.filter_cons_of_neg (by simp [hxr])
      rw [hnone, ih, hfc]
      simp

/-! ## C3: left-join fan-out -/

/-- C3: in the merged working set, a review with no matching activity
appears exactly once (per input occurrence) with absent activity fields, a
review with `k ≥ 1` matching activities appears exactly `k` times, every
populated activity field comes from a matching activity, and no review is
dropped. -/
theorem leftMerge_fanout (reviews : List Review) (acts : List Activity)
    (r : Review) :
    (((leftMerge reviews acts).filter (fun e => e.review == r)).length =
      (reviews.filter (fun x => x == r)).length *
        max 1 (acts.filter (fun a => a.District == r.District)).length) ∧
    (∀ e ∈ leftMerge reviews acts,
      acts.filter (fun a => a.District == e.review.District) = [] →
      e.act = none) ∧
    (∀ e ∈ leftMerge reviews acts, ∀ ai, e.act = some ai →
      ∃ a ∈ acts, a.District = e.review.District ∧
        ai = ⟨a.activityCategory, a.activity⟩) ∧
    (∀ x ∈ reviews, ∃ e ∈ leftMerge reviews acts, e.review = x) := by
  refine ⟨leftMerge_count reviews acts r, ?_, ?_, ?_⟩
  · intro e he hempty
    rcases List.mem_flatMap.mp he with ⟨x, _, hex⟩
    have hrx := mergeRow_review acts x e hex
    rw [mergeRow_no_match acts x (by rw [← hrx]; exact hempty)] at hex
    rw [List.mem_singleton.mp hex]
  · intro e he ai hai
    rcases List.mem_flatMap.mp he with ⟨x, _, hex⟩
    exact mergeRow_some acts x e hex ai hai
  · intro x hx
    obtain ⟨e, he⟩ :=
      List.exists_mem_of_ne_nil (mergeRow acts x) (mergeRow_ne_nil acts x)
    exact ⟨e, List.mem_flatMap.mpr ⟨x, hx, he⟩, mergeRow_review acts x e he⟩

/-- Witness for C3: one activity table entry matching `rvS2`'s district
and none matching `rvS1`'s; the no-match review appears once, and `rvS2`
is not dropped. -/
theorem leftMerge_fanout_witness :
    ((leftMerge [rvS1, rvS2] [actS1]).filter
      (fun e => e.review == rvS1)).length = 1 ∧
    ∃ e ∈ leftMerge [rvS1, rvS2] [actS1], e.review = rvS2 := by
  constructor
  · rw [(leftMerge_fanout [rvS1, rvS2] [actS1] rvS1).1]
    decide
  · exact (leftMerge_fanout [rvS1, rvS2] [actS1] rvS2).2.2.2 rvS2 (by decide)

/-! ## Helper lemmas: substring containment and line structure -/

/-- Concatenation of a list of strings, in order. -/
def concatAll : List String → String
  | [] => ""
  | s :: ss => s ++ concatAll ss

/-- Split a character sequence at newlines (the physical lines of a flat
text; kernel-computable, unlike `String.splitOn`). -/
def splitLines : List Char → List (List Char)
  | [] => [[]]
  | c :: t =>
    match splitLines t with
    | [] => [[c]]
    | l :: ls => if c == '\n' then [] :: l :: ls else (c :: l) :: ls

/-- A list is a leading segment of itself followed by anything. -/
theorem isPrefixOf_append_self :
    ∀ (b c : List Char), b.isPrefixOf (b ++ c) = true
  | [], _ => by simp [List.isPrefixOf]
  | x :: b', c => by
    rw [List.cons_append]
    show ((x == x) && b'.isPrefixOf (b' ++ c)) = true
    rw [isPrefixOf_append_self b' c, beq_self_eq_true, Bool.and_self]

/-- A leading-segment match is in particular a containment. -/
theorem containsSeq_of_isPrefixOf (n h : List Char)
    (hp : n.isPrefixOf h = true) : containsSeq n h = true := by
  cases h with
  | nil => exact hp
  | cons c t => simp [containsSeq, hp]

/-- Containment is stable under prepending one character. -/
theorem containsSeq_cons (n : List Char) (x : Char) (h : List Char)
    (hh : containsSeq n h = true) : containsSeq n (x :: h) = true := by
  simp [containsSeq, hh]

/-- Containment is stable under prepending any sequence. -/
theorem containsSeq_append_left (n : List Char) :
    ∀ (a h : List Char), containsSeq n h = true →
      containsSeq n (a ++ h) = true
  | [], _, hh => hh
  | x :: a', h, hh =>
    containsSeq_cons n x (a' ++ h) (containsSeq_append_left n a' h hh)

/-- A sequence contains itself followed by anything. -/
theorem containsSeq_self_append (n c : List Char) :
    containsSeq n (n ++ c) = true :=
  containsSeq_of_isPrefixOf n (n ++ c) (isPrefixOf_append_self n c)

/-- A sequence contains itself. -/
theorem containsSeq_self (n : List Char) : containsSeq n n = true := by
  have := containsSeq_self_append n []
  rwa [List.append_nil] at this

/-- Unrolling the `itinerary_text` accumulation from any prefix. -/
theorem itineraryText_foldl (bs : List (List Entry)) : ∀ acc : String,
    List.foldl
      (fun acc day => if day.isEmpty then acc else acc ++ dayText day ++ "\n")
      acc bs =
    acc ++ concatAll ((bs.filter (fun d => !d.isEmpty)).map
      (fun d => dayText d ++ "\n")) := by
  induction bs with
  | nil => intro acc; simp [concatAll, String.append_empty]
  | cons d ds ih =>
    intro acc
    rw [List.foldl_cons]
    by_cases hd : d.isEmpty
    · have hfc : (d :: ds).filter (fun x => !x.isEmpty) =
          ds.filter (fun x => !x.isEmpty) :=
        List.filter_cons_of_neg (by simp [hd])
      rw [if_pos hd, ih, hfc]
    · have hfc : (d :: ds).filter (fun x => !x.isEmpty) =
          d :: ds.filter (fun x => !x.isEmpty) :=
        List.filter_cons_of_pos (by simp [hd])
      rw [if_neg hd, ih, hfc, List.map_cons]
      simp [concatAll, String.append_assoc]

/-! ## C7: the flat text -/

/-- Counterexample to C7: the flat text of a one-day, one-entry plan is
exactly the entry block plus a blank line — every physical line is either
blank or one of the three entry-field lines, and no line contains a `Day`
header (the header is written only to the interactive display, not to
`itinerary_text`). -/
theorem itineraryText_no_day_header :
    itineraryText [[entA]] =
      "- **Destination:** A (D1)  \n  **Sentiment:** Positive  \n  **Activity:** N/A\n\n" ∧
    (splitLines (itineraryText [[entA]]).data).all
      (fun l => l.isEmpty || containsSeq "**".data l) = true ∧
    (splitLines (itineraryText [[entA]]).data).all
      (fun l => !(containsSeq "Day".data l || containsSeq "day".data l)) =
      true := by
  refine ⟨rfl, ?_, ?_⟩ <;> decide

/-- C7 as amended: the flat text is, for each non-empty day in order, the
concatenation of one block per entry followed by a blank line (no day
header line is present in the flat text); each entry block contains the
entry's Destination, District, Sentiment, and its activity info, which is
`N/A` exactly when the activity fields are absent. -/
theorem itineraryText_structure (buckets : List (List Entry)) :
    (itineraryText buckets =
      concatAll ((buckets.filter (fun d => !d.isEmpty)).map
        (fun d => dayText d ++ "\n"))) ∧
    (∀ e : Entry,
      containsSeq e.review.Destination.data (entryLine e).data = true ∧
      containsSeq e.review.District.data (entryLine e).data = true ∧
      containsSeq e.review.Sentiment.data (entryLine e).data = true ∧
      containsSeq (activityInfo e).data (entryLine e).data = true) ∧
    (∀ e : Entry, e.act = none → activityInfo e = "N/A") := by
  refine ⟨?_, ?_, ?_⟩
  · rw [itineraryText, itineraryText_foldl, String.empty_append]
  · intro e
    have hdata : (entryLine e).data =
        "- **Destination:** ".data ++ (e.review.Destination.data ++
        (" (".data ++ (e.review.District.data ++ (")  \n".data ++
        ("  **Sentiment:** ".data ++ (e.review.Sentiment.data ++
        ("  \n".data ++ ("  **Activity:** ".data ++
        (activityInfo e).data)))))))) := by
      simp [entryLine, String.data_append, List.append_assoc]
    refine ⟨?_, ?_, ?_, ?_⟩
    · rw [hdata]
      exact containsSeq_append_left _ _ _ (containsSeq_self_append _ _)
    · rw [hdata]
      refine containsSeq_append_left _ _ _ ?_
      refine containsSeq_append_left _ _ _ ?_
      refine containsSeq_append_left _ _ _ ?_
      exact containsSeq_self_append _ _
    · rw [hdata]
      refine containsSeq_append_left _ _ _ ?_
      refine containsSeq_append_left _ _ _ ?_
      refine containsSeq_append_left _ _ _ ?_
      refine containsSeq_append_left _ _ _ ?_
      refine containsSeq_append_left _ _ _ ?_
      refine containsSeq_append_left _ _ _ ?_
      exact containsSeq_self_append _ _
    · rw [hdata]
      refine containsSeq_append_left _ _ _ ?_
      refine containsSeq_append_left _ _ _ ?_
      refine containsSeq_append_left _ _ _ ?_
      refine containsSeq_append_left _ _ _ ?_
      refine containsSeq_append_left _ _ _ ?_
      refine containsSeq_append_left _ _ _ ?_
      refine containsSeq_append_left _ _ _ ?_
      refine containsSeq_append_left _ _ _ ?_
      refine containsSeq_append_left _ _ _ ?_
      exact containsSeq_self _
  · intro e he
    simp [activityInfo, he]

/-- Witness for the amended C7 on a two-day plan with an empty second
day. -/
theorem itineraryText_structure_witness :
    itineraryText [[entB], []] = dayText [entB] ++ "\n" ∧
    activityInfo entB = "N/A" := by
  constructor
  · rw [(itineraryText_structure [[entB], []]).1]
    rfl
  · exact (itineraryText_structure [[entB], []]).2.2 entB rfl

/-! ## Helper lemmas: literal patterns compile to character chains -/

/-- The expression a metacharacter-free pattern compiles to: the
concatenation of its characters as case-insensitive literals. -/
def chainRE : List Char → RE
  | [] => .eps
  | c :: cs => .cat (RE.lit c) (chainRE cs)

/-- Unpacking `reMetachars.contains c = false` into the individual
comparisons the parser branches on. -/
theorem nonmeta_spec (c : Char) (h : reMetachars.contains c = false) :
    (c == '(') = false ∧ (c == '.') = false ∧ (c == '*') = false ∧
    (c == '+') = false ∧ (c == '?') = false ∧ (c == '\\') = false ∧
    (c == '[') = false ∧ (c == '^') = false ∧ (c == '$') = false ∧
    (c == ')') = false ∧ (c == '|') = false := by
  simp only [reMetachars, List.contains, List.elem_eq_mem, List.mem_cons,
    List.not_mem_nil, or_false, decide_eq_false_iff_not, not_or] at h
  obtain ⟨hdot, hcarat, hdollar, hstar, hplus, hquest, _, _, hlbr, hrbr,
    hbsl, hbar, hlp, hrp⟩ := h
  refine ⟨?_, ?_, ?_, ?_, ?_, ?_, ?_, ?_, ?_, ?_, ?_⟩ <;>
    exact beq_eq_false_iff_ne.mpr (by assumption)

/-- Reduction of an `Except` bind on a success value (used to unfold the
parser's `do` blocks in proofs). -/
theorem bind_ok_red {ε α β : Type} (a : α) (f : α → Except ε β) :
    (do let x ← Except.ok a; f x : Except ε β) = f a := rfl

/-- A non-metacharacter parses as one case-insensitive literal atom. -/
theorem pAtomF_lit (f : Nat) (c : Char) (rest : List Char)
    (h : reMetachars.contains c = false) :
    pAtomF (f + 1) (c :: rest) = .ok (RE.lit c, rest) := by
  obtain ⟨h1, h2, h3, h4, h5, h6, h7, h8, h9, _, _⟩ := nonmeta_spec c h
  simp [pAtomF, h1, h2, h3, h4, h5, h6, h7, h8, h9]

/-- A metacharacter-free sequence parses as the chain of its literals. -/
theorem pCatF_lits :
    ∀ (ds : List Char) (f : Nat),
      ds.all (fun c => !reMetachars.contains c) = true →
      ds.length + 1 ≤ f →
      pCatF f ds = .ok (chainRE ds, [])
  | [], f, _, hf => by
    cases f with
    | zero => omega
    | succ f => rfl
  | c :: ds', f, h, hf => by
    cases f with
    | zero => omega
    | succ f =>
      rw [List.all_cons, Bool.and_eq_true, Bool.not_eq_true'] at h
      obtain ⟨hc, hds⟩ := h
      obtain ⟨_, _, h3, h4, h5, _, _, _, _, h10, h11⟩ := nonmeta_spec c hc
      cases f with
      | zero => simp at hf
      | succ f =>
        have hatom := pAtomF_lit f c ds' hc
        have hcat : pCatF (f + 1) ds' = .ok (chainRE ds', []) := by
          apply pCatF_lits ds' (f + 1) hds
          simp at hf
          omega
        cases ds' with
        | nil =>
          have hnil : pCatF (f + 1) ([] : List Char) = .ok (RE.eps, []) := rfl
          conv_lhs => rw [pCatF]
          simp [beq_eq_false_iff_ne.mp h10, beq_eq_false_iff_ne.mp h11,
            hatom, hnil, chainRE, bind_ok_red]
        | cons d ds'' =>
          have hd : reMetachars.contains d = false := by
            rw [List.all_cons, Bool.and_eq_true, Bool.not_eq_true'] at hds
            exact hds.1
          obtain ⟨_, _, hd3, hd4, hd5, _, _, _, _, _, _⟩ := nonmeta_spec d hd
          conv_lhs => rw [pCatF]
          simp [beq_eq_false_iff_ne.mp h10, beq_eq_false_iff_ne.mp h11,
            hatom, beq_eq_false_iff_ne.mp hd3, beq_eq_false_iff_ne.mp hd4,
            beq_eq_false_iff_ne.mp hd5, hcat, chainRE, bind_ok_red]

/-- Top-level parse of a metacharacter-free pattern. -/
theorem pAltF_lits (ds : List Char) (f : Nat)
    (h : ds.all (fun c => !reMetachars.contains c) = true)
    (hf : ds.length + 2 ≤ f) :
    pAltF f ds = .ok (chainRE ds, []) := by
  cases f with
  | zero => omega
  | succ f =>
    have hcat : pCatF f ds = .ok (chainRE ds, []) :=
      pCatF_lits ds f h (by omega)
    simp [pAltF, hcat, bind_ok_red]

/-- A metacharacter-free pattern compiles to its literal chain. -/
theorem reCompile_lits (pat : String) (h : literalPattern pat = true) :
    reCompile pat = .ok (chainRE pat.data) := by
  have hlen : pat.length = pat.data.length := rfl
  have hp : pAltF (4 * pat.length + 4) pat.data = .ok (chainRE pat.data, []) :=
    pAltF_lits pat.data _ h (by omega)
  rw [reCompile, hp]

/-! ## Helper lemmas: search of a literal chain is substring search -/

/-- The empty expression matches no leading segment. -/
theorem mh_empt : ∀ s : List Char, RE.matchesHead .empt s = false
  | [] => rfl
  | c :: s => by
    simp [RE.matchesHead, RE.nullable, RE.deriv, mh_empt s]

/-- Leading-segment matching distributes over alternation. -/
theorem mh_alt : ∀ (a b : RE) (s : List Char),
    RE.matchesHead (.alt a b) s = (a.matchesHead s || b.matchesHead s)
  | _, _, [] => rfl
  | a, b, c :: s => by
    simp [RE.matchesHead, RE.nullable, RE.deriv, mh_alt _ _ s,
      Bool.or_assoc, Bool.or_left_comm]

/-- A concatenation headed by the empty expression matches nothing. -/
theorem mh_cat_empt : ∀ (r : RE) (s : List Char),
    RE.matchesHead (.cat .empt r) s = false
  | _, [] => rfl
  | r, c :: s => by
    simp [RE.matchesHead, RE.nullable, RE.deriv, mh_cat_empt r s]

/-- A concatenation headed by epsilon matches like its tail. -/
theorem mh_cat_eps (r : RE) (s : List Char) :
    RE.matchesHead (.cat .eps r) s = r.matchesHead s := by
  cases s with
  | nil => simp [RE.matchesHead, RE.nullable]
  | cons c s' =>
    show (RE.nullable .eps && r.nullable ||
      ((RE.cat .eps r).deriv c).matchesHead s') = _
    simp [RE.matchesHead, RE.nullable, RE.deriv, mh_alt, mh_cat_empt]

/-- A literal chain matches a leading segment exactly when it is a
case-folded prefix. -/
theorem mh_chain : ∀ (n s : List Char),
    (chainRE n).matchesHead s =
      (n.map Char.toLower).isPrefixOf (s.map Char.toLower)
  | [], [] => rfl
  | [], c :: s' => by
    simp [chainRE, RE.matchesHead, RE.nullable, List.isPrefixOf]
  | x :: n', [] => by
    simp [chainRE, RE.matchesHead, RE.nullable, RE.lit, List.isPrefixOf]
  | x :: n', c :: s' => by
    show (RE.nullable _ || ((RE.cat (RE.lit x) (chainRE n')).deriv c).matchesHead s') = _
    rw [List.map_cons, List.map_cons]
    show (_ || _) = ((x.toLower == c.toLower) && _)
    by_cases hpc : c.toLower == x.toLower
    · have hd : (RE.cat (RE.lit x) (chainRE n')).deriv c =
          .cat .eps (chainRE n') := by
        simp [RE.deriv, RE.nullable, RE.lit, hpc]
      rw [hd]
      have hx : (x.toLower == c.toLower) = true := by
        rw [beq_iff_eq] at hpc ⊢
        exact hpc.symm
      simp [RE.nullable, RE.lit, mh_cat_eps, mh_chain n' s', hx]
    · have hd : (RE.cat (RE.lit x) (chainRE n')).deriv c =
          .cat .empt (chainRE n') := by
        simp [RE.deriv, RE.nullable, RE.lit]
        intro hc
        exact absurd (beq_iff_eq.mpr hc) hpc
      rw [hd]
      have hx : (x.toLower == c.toLower) = false := by
        rw [beq_eq_false_iff_ne]
        intro hc
        exact hpc (beq_iff_eq.mpr hc.symm)
      simp [RE.nullable, RE.lit, mh_cat_empt, hx]

/-- Searching a literal chain anywhere is case-folded containment. -/
theorem search_chain : ∀ (n s : List Char),
    (chainRE n).search s = containsSeq (n.map Char.toLower) (s.map Char.toLower)
  | n, [] => by
    cases n with
    | nil => rfl
    | cons x n' =>
      simp [chainRE, RE.search, RE.nullable, RE.lit, containsSeq,
        List.isPrefixOf]
  | n, c :: s' => by
    show ((chainRE n).matchesHead (c :: s') || (chainRE n).search s') = _
    rw [mh_chain, search_chain n s', List.map_cons]
    rfl

/-- Evaluating `Series.str.contains` on a metacharacter-free pattern is exactly the
spec's case-insensitive substring containment. -/
theorem pdStrContains_literal (pat s : String)
    (h : literalPattern pat = true) :
    pdStrContains pat s = .ok (ciSubstrContains pat s) := by
  rw [pdStrContains, reCompile_lits pat h]
  show Except.ok (rsearchS (chainRE pat.data) s) = _
  rw [rsearchS, search_chain, ciSubstrContains]

/-! ## C2: start/end-city reordering -/

/-- Counterexample to C2: the match step interprets the city string as a
pattern, not a literal substring.  With start city `a.`, the Destination
`Ab` matches (any character may follow the `a`) although it does not
contain the substring `a.`, so the reorder moves it to the front, while
substring semantics would leave the order unchanged. -/
theorem reorderStart_regex_not_substring :
    reorderStart "a." [entBa, entAb] = .ok [entAb, entBa] ∧
    ciSubstrContains "a." "Ab" = false ∧
    ciSubstrContains "a." "Ba" = false ∧
    ([entAb, entBa] : List Entry) ≠ [entBa, entAb] := by
  refine ⟨?_, ?_, ?_, ?_⟩ <;> decide

/-- C2 as amended: for a non-empty, metacharacter-free city string the
claim holds as written — the start-city step moves exactly the entries
whose Destination case-insensitively contains the string to the front,
each part keeping its relative order (a permutation of the input), and
the end-city step symmetrically moves matches to the back.  (For strings
containing pattern metacharacters the code instead matches them as
regular expressions — see the counterexample — or raises.) -/
theorem reorder_city_matches_to_front (entries : List Entry) (sc : String)
    (h1 : sc ≠ "") (h2 : literalPattern sc = true) :
    reorderStart sc entries = .ok
      (entries.filter (fun e => ciSubstrContains sc e.review.Destination) ++
       entries.filter (fun e => !ciSubstrContains sc e.review.Destination)) ∧
    (entries.filter (fun e => ciSubstrContains sc e.review.Destination) ++
     entries.filter
       (fun e => !ciSubstrContains sc e.review.Destination)).Perm entries ∧
    reorderEnd sc entries = .ok
      (entries.filter (fun e => !ciSubstrContains sc e.review.Destination) ++
       entries.filter (fun e => ciSubstrContains sc e.review.Destination)) := by
  have hbeq : (sc == "") = false := beq_eq_false_iff_ne.mpr h1
  have hcomp := reCompile_lits sc h2
  have hpred : ∀ e : Entry,
      rsearchS (chainRE sc.data) e.review.Destination =
        ciSubstrContains sc e.review.Destination := by
    intro e
    rw [rsearchS, search_chain, ciSubstrContains]
  have hfeq : entries.filter
        (fun e => rsearchS (chainRE sc.data) e.review.Destination) =
      entries.filter (fun e => ciSubstrContains sc e.review.Destination) :=
    List.filter_congr (fun e _ => hpred e)
  have hfneq : entries.filter
        (fun e => !rsearchS (chainRE sc.data) e.review.Destination) =
      entries.filter (fun e => !ciSubstrContains sc e.review.Destination) :=
    List.filter_congr (fun e _ => by rw [hpred e])
  refine ⟨?_, List.filter_append_perm _ entries, ?_⟩
  · rw [reorderStart]
    simp only [hbeq, Bool.false_eq_true, if_false, hcomp, hfeq, hfneq]
    by_cases hm : entries.filter
        (fun e => ciSubstrContains sc e.review.Destination) = []
    · rw [hm]
      simp only [List.isEmpty_nil, if_true, List.nil_append]
      have : entries.filter
          (fun e => !ciSubstrContains sc e.review.Destination) = entries :=
        List.filter_eq_self.mpr (fun x hx => by
          simp [List.filter_eq_nil_iff.mp hm x hx])
      rw [this]
    · rw [if_neg (by simp [List.isEmpty_iff, hm])]
  · rw [reorderEnd]
    simp only [hbeq, Bool.false_eq_true, if_false, hcomp, hfeq, hfneq]
    by_cases hm : entries.filter
        (fun e => ciSubstrContains sc e.review.Destination) = []
    · rw [hm]
      simp only [List.isEmpty_nil, if_true, List.append_nil]
      have : entries.filter
          (fun e => !ciSubstrContains sc e.review.Destination) = entries :=
        List.filter_eq_self.mpr (fun x hx => by
          simp [List.filter_eq_nil_iff.mp hm x hx])
      rw [this]
    · rw [if_neg (by simp [List.isEmpty_iff, hm])]

/-- Witness for the amended C2: the spec's own example — entries with
Destinations `A`, `B`, `C` and start city `B` reorder to `B`, `A`, `C`. -/
theorem reorder_city_matches_to_front_witness :
    reorderStart "B" [entA, entB, entC] = .ok [entB, entA, entC] := by
  rw [(reorder_city_matches_to_front [entA, entB, entC] "B"
    (by decide) (by decide)).1]
  decide

end TravelPulse
